import Mathlib

/-!
# SHA-256 implementation: shallow embedding and verification

A shallow embedding of `src/SHA-256_implemetation.py` (a from-scratch SHA-256
in Python) together with a reference model written from the FIPS 180-4
description in the design document, and theorems settling the spec claims.

Conventions of the embedding:
* Python `bytes` / `bytearray` values are `List ℕ` with every entry below 256.
* Python's arbitrary-precision non-negative integers are `ℕ`.
* Python operations that can raise (`int.to_bytes` overflow) return `Option`.
-/

namespace SHA256Impl

/-! ## Bitwise primitive library (source lines 14-36) -/

/-- Python `~x & z` for non-negative `x`, `z`: the bits of `z` with the bits of
`x` cleared.  (Python integers are unbounded two's complement, so for `z ≥ 0`
the result of `~x & z` is exactly `z` with `x`'s bits removed.) -/
def notAnd (x z : ℕ) : ℕ := z ^^^ (x &&& z)

/-- Source `rotr(x, n, size=32)`: `(x >> n) | (x << size-n)`.  Note the source does
not mask the result to 32 bits. -/
def rotr (x n : ℕ) : ℕ := (x >>> n) ||| (x <<< (32 - n))

/-- Source `shr(x, n)`: `x >> n`. -/
def shr (x n : ℕ) : ℕ := x >>> n

/-- Source `ch(x, y, z)`: `(x & y) ^ (~x & z)`. -/
def ch (x y z : ℕ) : ℕ := (x &&& y) ^^^ notAnd x z

/-- Source `maj(x, y, z)`: `(x & y) ^ (x & z) ^ (y & z)`. -/
def maj (x y z : ℕ) : ℕ := (x &&& y) ^^^ (x &&& z) ^^^ (y &&& z)

/-- Source `summation0(x)`: `rotr(x, 2) ^ rotr(x, 13) ^ rotr(x, 22)`. -/
def summation0 (x : ℕ) : ℕ := rotr x 2 ^^^ rotr x 13 ^^^ rotr x 22

/-- Source `summation1(x)`: `rotr(x, 6) ^ rotr(x, 11) ^ rotr(x, 25)`. -/
def summation1 (x : ℕ) : ℕ := rotr x 6 ^^^ rotr x 11 ^^^ rotr x 25

/-- Source `sigma0(x)`: `rotr(x, 7) ^ rotr(x, 18) ^ shr(x, 3)`. -/
def sigma0 (x : ℕ) : ℕ := rotr x 7 ^^^ rotr x 18 ^^^ shr x 3

/-- Source `sigma1(x)`: `rotr(x, 17) ^ rotr(x, 19) ^ shr(x, 10)`. -/
def sigma1 (x : ℕ) : ℕ := rotr x 17 ^^^ rotr x 19 ^^^ shr x 10

/-- Source `bytes_to_integer(x)`: `int.from_bytes(x, 'big')`. -/
def bytes_to_integer (x : List ℕ) : ℕ := x.foldl (fun acc b => acc * 256 + b) 0

/-- The 4-byte big-endian representation of `x` (the digits produced by
Python's `x.to_bytes(4, 'big')` when it succeeds). -/
def bytes4 (x : ℕ) : List ℕ :=
  [x / 2 ^ 24 % 256, x / 2 ^ 16 % 256, x / 2 ^ 8 % 256, x % 256]

/-- Source `integer_to_bytes(x)`: `x.to_bytes(4, 'big')`, which raises
`OverflowError` when `x ≥ 2^32`. -/
def integer_to_bytes (x : ℕ) : Option (List ℕ) :=
  if x < 2 ^ 32 then some (bytes4 x) else none

/-- The 8-byte big-endian representation of `x` (the digits produced by
Python's `x.to_bytes(8, 'big')` when it succeeds). -/
def bytes8 (x : ℕ) : List ℕ :=
  [x / 2 ^ 56 % 256, x / 2 ^ 48 % 256, x / 2 ^ 40 % 256, x / 2 ^ 32 % 256,
   x / 2 ^ 24 % 256, x / 2 ^ 16 % 256, x / 2 ^ 8 % 256, x % 256]

/-- Python `l.to_bytes(8, 'big')` as used in `padding`: raises
`OverflowError` when `l ≥ 2^64`. -/
def length_to_bytes (l : ℕ) : Option (List ℕ) :=
  if l < 2 ^ 64 then some (bytes8 l) else none

/-! ## Constant table generator (source lines 46-61) -/

/-- The truthiness test `all(n % d for d in range(2, n))` from
`generate_n_primes`: naive trial division. -/
def is_prime (n : ℕ) : Bool := (List.range' 2 (n - 2)).all (fun d => n % d != 0)

/-- Source `generate_n_primes(n)`: the first `n` naturals from 2 on that pass the
trial-division test.  The source filters an unbounded counter; the first 64
primes all lie below 400, so enumerating the candidates `2, …, 399` realises
the same list for every `n ≤ 64` (the only uses are `n = 64` and `n = 8`). -/
def generate_n_primes (n : ℕ) : List ℕ :=
  ((List.range' 2 398).filter is_prime).take n

/-- Binary search for the floor of the `k`-th root: with enough fuel and
`lo = 0`, `hi = N + 1`, returns the greatest `v` with `v ^ k ≤ N`. -/
def nthRootAux (k N : ℕ) : ℕ → ℕ → ℕ → ℕ
  | 0, lo, _ => lo
  | fuel + 1, lo, hi =>
    if hi ≤ lo + 1 then lo
    else
      let mid := (lo + hi) / 2
      if mid ^ k ≤ N then nthRootAux k N fuel mid hi else nthRootAux k N fuel lo mid

/-- Floor root `⌊N^(1/k)⌋`; fuel 130 suffices for every `N < 2^129` since the search
interval halves at each step. -/
def nthRootFloor (k N : ℕ) : ℕ := nthRootAux k N 130 0 (N + 1)

/-- Source `convert_prime_fraction_to_hex(prime, n, hex_chars)`.  The source
computes `prime ** (1/n)` in IEEE-754 double precision; floating point is
idealized here as the exact real `n`-th root (for the 72 prime/exponent pairs
the program uses, the double-precision value and the exact root have the same
first 32 fractional bits).  The returned value is
`⌊frac(prime^(1/n)) · 16^hex_chars⌋`, obtained exactly as
`⌊prime^(1/n) · 16^hex_chars⌋ mod 16^hex_chars` by integer root extraction. -/
def convert_prime_fraction_to_hex (prime n hex_chars : ℕ) : ℕ :=
  nthRootFloor n (prime * (16 ^ hex_chars) ^ n) % 16 ^ hex_chars

/-- Source `gen_keys()`: the 64 round constants, from cube roots of the first 64
primes. -/
def gen_keys : List ℕ :=
  (generate_n_primes 64).map (fun p => convert_prime_fraction_to_hex p 3 8)

/-- Source `gen_initial_hash()`: the 8 initial hash words, from square roots of the
first 8 primes. -/
def gen_initial_hash : List ℕ :=
  (generate_n_primes 8).map (fun p => convert_prime_fraction_to_hex p 2 8)

/-! ## Padding and parsing (source lines 65-78) -/

/-- The `while (len(msg)*8 % 512 != 448): msg.append(0x00)` loop of
`padding`.  At most 63 zeros are ever appended, so fuel 64 always suffices. -/
def padZerosAux : ℕ → List ℕ → List ℕ
  | 0, msg => msg
  | fuel + 1, msg =>
    if msg.length * 8 % 512 = 448 then msg else padZerosAux fuel (msg ++ [0x00])

/-- The zero-padding loop of `padding`. -/
def padZeros (msg : List ℕ) : List ℕ := padZerosAux 64 msg

/-- Source `padding(msg)`: append `0x80`, pad with zeros to 448 mod 512 bits, then
append the original bit length as 8 big-endian bytes (`l.to_bytes(8,'big')`
raises for `l ≥ 2^64`, hence the `Option`). -/
def padding (msg : List ℕ) : Option (List ℕ) :=
  let l := msg.length * 8
  let m := padZeros (msg ++ [0b10000000])
  (length_to_bytes l).map (fun lb => m ++ lb)

/-- The body of `parsing`, peeling 64-byte chunks; fuel `msg.length` covers
every iteration of `range(0, len(msg), 64)`. -/
def parsingAux : ℕ → List ℕ → List (List ℕ)
  | 0, _ => []
  | fuel + 1, msg =>
    if msg.length = 0 then [] else msg.take 64 :: parsingAux fuel (msg.drop 64)

/-- Source `parsing(msg)`: `[msg[i:i+64] for i in range(0, len(msg), 64)]`. -/
def parsing (msg : List ℕ) : List (List ℕ) := parsingAux msg.length msg

/-! ## Message schedule (source lines 95-109) -/

/-- One iteration of the schedule loop: the entry appended at index `t`,
given the schedule `ms` built so far.  For `t > 15` the source stores
`integer_to_bytes(total)` with `total` already reduced mod `2^32`, so the
conversion always succeeds and equals `bytes4 total`. -/
def scheduleEntry (msg_block : List ℕ) (ms : List (List ℕ)) (t : ℕ) : List ℕ :=
  if t ≤ 15 then (msg_block.drop (t * 4)).take 4
  else
    let t_1 := sigma1 (bytes_to_integer (ms.getD (t - 2) []))
    let t_2 := bytes_to_integer (ms.getD (t - 7) [])
    let t_3 := sigma0 (bytes_to_integer (ms.getD (t - 15) []))
    let t_4 := bytes_to_integer (ms.getD (t - 16) [])
    bytes4 ((t_1 + t_2 + t_3 + t_4) % 2 ^ 32)

/-- The schedule list after the first `n` iterations of `for t in range(64)`. -/
def mkScheduleN (msg_block : List ℕ) : ℕ → List (List ℕ)
  | 0 => []
  | n + 1 =>
    let ms := mkScheduleN msg_block n
    ms ++ [scheduleEntry msg_block ms n]

/-- The complete 64-entry message schedule built for one block. -/
def mkSchedule (msg_block : List ℕ) : List (List ℕ) := mkScheduleN msg_block 64

/-! ## Compression (source lines 112-133) -/

/-- The eight working variables `a, …, h`. -/
structure Digest where
  a : ℕ
  b : ℕ
  c : ℕ
  d : ℕ
  e : ℕ
  f : ℕ
  g : ℕ
  h : ℕ
  deriving Repr, DecidableEq

/-- One iteration of the compression loop (source lines 115-124).  Python
operator precedence puts `% 2**32` only on the last summand of each of
`temp_1` and `temp_2`; `w` stands for `bytes_to_integer(msg_schedule[t])`. -/
def roundCode (k w : ℕ) (s : Digest) : Digest :=
  let temp_1 := s.h + summation1 s.e + ch s.e s.f s.g + k + w % 2 ^ 32
  let temp_2 := summation0 s.a + maj s.a s.b s.c % 2 ^ 32
  { h := s.g, g := s.f, f := s.e, e := (s.d + temp_1) % 2 ^ 32,
    d := s.c, c := s.b, b := s.a, a := (temp_1 + temp_2) % 2 ^ 32 }

/-- The full 64-round compression loop over a schedule `ms`. -/
def compress (key : List ℕ) (ms : List (List ℕ)) (s : Digest) : Digest :=
  (List.range 64).foldl
    (fun s t => roundCode (key.getD t 0) (bytes_to_integer (ms.getD t [])) s) s

/-- Source `a, b, c, d, e, f, g, h = hash_value` (the hash value always has exactly
8 entries). -/
def initDigest (hv : List ℕ) : Digest :=
  ⟨hv.getD 0 0, hv.getD 1 0, hv.getD 2 0, hv.getD 3 0,
   hv.getD 4 0, hv.getD 5 0, hv.getD 6 0, hv.getD 7 0⟩

/-- Everything `sha256` does after its block loop (source lines 112-133), as
a function of the one schedule binding that survives that loop: the 64-round
compression loop seeded from `gen_initial_hash` (`a, …, h = hash_value`), the
accumulation `H.append((i+j) % 2**32)`, and the serialization
`b''.join(integer_to_bytes(i) for i in H)`. -/
def digestOfSchedule (msg_schedule : List (List ℕ)) : Option (List ℕ) :=
  let key := gen_keys
  let hash_value := gen_initial_hash
  let s := compress key msg_schedule (initDigest hash_value)
  let outputs := [s.a, s.b, s.c, s.d, s.e, s.f, s.g, s.h]
  let H := List.zipWith (fun i j => (i + j) % 2 ^ 32) hash_value outputs
  (H.mapM integer_to_bytes).map List.flatten

/-- Source `sha256(msg)` exactly as the source runs: note that in the source
the schedule-building `for t in range(64)` loop is nested inside the
`for msg_block in msg_blocks` loop, but the compression loop and the final
accumulation are *outside* it (indented at function level), so only the
schedule binding left over from the final block is ever compressed — that
tail of the function is `digestOfSchedule`. -/
def sha256 (msg : List ℕ) : Option (List ℕ) :=
  (padding msg).bind fun padded =>
    let msg_blocks := parsing padded
    (msg_blocks.foldl (fun _ blk => some (mkSchedule blk))
        (none : Option (List (List ℕ)))).bind fun msg_schedule =>
      digestOfSchedule msg_schedule

/-- The `t`-th word of the schedule built for `msg_block`, read back as the
integer the compression loop uses (`bytes_to_integer(msg_schedule[t])`). -/
def scheduleWord (msg_block : List ℕ) (t : ℕ) : ℕ :=
  bytes_to_integer ((mkSchedule msg_block).getD t [])

end SHA256Impl

namespace SHA256Spec

/-!
## Reference model, written from the design document's words

These definitions follow the FIPS 180-4 description in the specification
(§3 data model, §4.2 primitives, §4.3 padder, §4.4 parser, §4.5 scheduler,
§4.6 compression, §4.7 accumulator), not the Python source; they exist to be
compared against the `SHA256Impl` definitions.
-/

/-- Spec §4.2: `rotr(x, n)` — right rotate by `n` bits within a 32-bit
field. -/
def rotr32 (x n : ℕ) : ℕ := ((x >>> n) ||| (x <<< (32 - n))) % 2 ^ 32

/-- Spec §4.2: `ch(x,y,z) = (x&y) ^ (~x&z)` on 32-bit words (complement
within the 32-bit field). -/
def ch32 (x y z : ℕ) : ℕ := (x &&& y) ^^^ ((x ^^^ (2 ^ 32 - 1)) &&& z)

/-- Spec §4.2: `maj(x,y,z) = (x&y)^(x&z)^(y&z)`. -/
def maj32 (x y z : ℕ) : ℕ := (x &&& y) ^^^ (x &&& z) ^^^ (y &&& z)

/-- Spec §4.2: `Σ0(x) = rotr(x,2)^rotr(x,13)^rotr(x,22)`. -/
def bigSigma0 (x : ℕ) : ℕ := rotr32 x 2 ^^^ rotr32 x 13 ^^^ rotr32 x 22

/-- Spec §4.2: `Σ1(x) = rotr(x,6)^rotr(x,11)^rotr(x,25)`. -/
def bigSigma1 (x : ℕ) : ℕ := rotr32 x 6 ^^^ rotr32 x 11 ^^^ rotr32 x 25

/-- Spec §4.2: `σ0(x) = rotr(x,7)^rotr(x,18)^shr(x,3)`. -/
def smallSigma0 (x : ℕ) : ℕ := rotr32 x 7 ^^^ rotr32 x 18 ^^^ (x >>> 3)

/-- Spec §4.2: `σ1(x) = rotr(x,17)^rotr(x,19)^shr(x,10)`. -/
def smallSigma1 (x : ℕ) : ℕ := rotr32 x 17 ^^^ rotr32 x 19 ^^^ (x >>> 10)

/-- The fixed round-constant table published in FIPS 180-4 (spec §4.1:
"output must exactly match the fixed table defined by FIPS 180-4"). -/
def Ktable : List ℕ :=
  [0x428a2f98, 0x71374491, 0xb5c0fbcf, 0xe9b5dba5] ++
  [0x3956c25b, 0x59f111f1, 0x923f82a4, 0xab1c5ed5] ++
  [0xd807aa98, 0x12835b01, 0x243185be, 0x550c7dc3] ++
  [0x72be5d74, 0x80deb1fe, 0x9bdc06a7, 0xc19bf174] ++
  [0xe49b69c1, 0xefbe4786, 0x0fc19dc6, 0x240ca1cc] ++
  [0x2de92c6f, 0x4a7484aa, 0x5cb0a9dc, 0x76f988da] ++
  [0x983e5152, 0xa831c66d, 0xb00327c8, 0xbf597fc7] ++
  [0xc6e00bf3, 0xd5a79147, 0x06ca6351, 0x14292967] ++
  [0x27b70a85, 0x2e1b2138, 0x4d2c6dfc, 0x53380d13] ++
  [0x650a7354, 0x766a0abb, 0x81c2c92e, 0x92722c85] ++
  [0xa2bfe8a1, 0xa81a664b, 0xc24b8b70, 0xc76c51a3] ++
  [0xd192e819, 0xd6990624, 0xf40e3585, 0x106aa070] ++
  [0x19a4c116, 0x1e376c08, 0x2748774c, 0x34b0bcb5] ++
  [0x391c0cb3, 0x4ed8aa4a, 0x5b9cca4f, 0x682e6ff3] ++
  [0x748f82ee, 0x78a5636f, 0x84c87814, 0x8cc70208] ++
  [0x90befffa, 0xa4506ceb, 0xbef9a3f7, 0xc67178f2]

/-- The fixed initial-hash table published in FIPS 180-4. -/
def H0table : List ℕ :=
  [0x6a09e667, 0xbb67ae85, 0x3c6ef372] ++ [0xa54ff53a, 0x510e527f] ++
  [0x9b05688c, 0x1f83d9ab, 0x5be0cd19]

/-- Spec §3/§4.3: the padded message — input bytes, one `0x80` byte, the
minimum number of `0x00` bytes bringing the bit length to 448 mod 512, then
the original bit length as a big-endian 64-bit integer.  The zero count with
that minimality property is `(120 - (len+1) % 64) % 64` in bytes. -/
def padSpec (m : List ℕ) : List ℕ :=
  m ++ 0x80 :: (List.replicate ((120 - (m.length + 1) % 64) % 64) 0
    ++ SHA256Impl.bytes8 (8 * m.length))

/-- Spec §4.4: split the padded message into its 64-byte blocks, in order. -/
def blocksSpec (p : List ℕ) : List (List ℕ) :=
  (List.range (p.length / 64)).map (fun i => (p.drop (64 * i)).take 64)

/-- Spec §4.5: the message-schedule words after `n` steps:
`W[t]` for `t ≤ 15` is the `t`-th big-endian 32-bit word of the block, and
for `t ≥ 16`, `W[t] = (σ1(W[t-2]) + W[t-7] + σ0(W[t-15]) + W[t-16]) mod 2^32`. -/
def wordsN (blk : List ℕ) : ℕ → List ℕ
  | 0 => []
  | n + 1 =>
    let W := wordsN blk n
    W ++ [if n ≤ 15 then SHA256Impl.bytes_to_integer ((blk.drop (4 * n)).take 4)
          else (smallSigma1 (W.getD (n - 2) 0) + W.getD (n - 7) 0 +
                smallSigma0 (W.getD (n - 15) 0) + W.getD (n - 16) 0) % 2 ^ 32]

/-- Spec §4.5: the full 64-word message schedule of one block. -/
def scheduleSpec (blk : List ℕ) : List ℕ := wordsN blk 64

/-- Spec §4.6: one compression round:
`T1 = (h + Σ1(e) + ch(e,f,g) + K[t] + W[t]) mod 2^32`,
`T2 = (Σ0(a) + maj(a,b,c)) mod 2^32`, then
`h=g; g=f; f=e; e=(d+T1) mod 2^32; d=c; c=b; b=a; a=(T1+T2) mod 2^32`. -/
def roundSpec (k w : ℕ) (s : SHA256Impl.Digest) : SHA256Impl.Digest :=
  let T1 := (s.h + bigSigma1 s.e + ch32 s.e s.f s.g + k + w) % 2 ^ 32
  let T2 := (bigSigma0 s.a + maj32 s.a s.b s.c) % 2 ^ 32
  { h := s.g, g := s.f, f := s.e, e := (s.d + T1) % 2 ^ 32,
    d := s.c, c := s.b, b := s.a, a := (T1 + T2) % 2 ^ 32 }

/-- Spec §4.6/§4.7: compress one block from the current digest state and fold
the output back: `H[i] := (H[i] + output[i]) mod 2^32`. -/
def compressSpec (H : List ℕ) (blk : List ℕ) : List ℕ :=
  let W := scheduleSpec blk
  let s0 := SHA256Impl.initDigest H
  let s := (List.range 64).foldl
    (fun s t => roundSpec (Ktable.getD t 0) (W.getD t 0) s) s0
  List.zipWith (fun x y => (x + y) % 2 ^ 32)
    H [s.a, s.b, s.c, s.d, s.e, s.f, s.g, s.h]

/-- Spec §4.7/§6: the FIPS 180-4 SHA-256 digest — process every block in
order starting from the initial hash, then serialize the 8 final words
big-endian into 32 bytes.  (Messages at or beyond the 2^64-bit ceiling are
out of scope per spec §6.) -/
def sha256Spec (m : List ℕ) : List ℕ :=
  (((blocksSpec (padSpec m)).foldl compressSpec H0table).map
    SHA256Impl.bytes4).flatten

end SHA256Spec

/-!
## Shared helper lemmas
-/

section Helpers

open SHA256Impl SHA256Spec

/-- Taking the low `n` bits commutes with bitwise or. -/
lemma lor_mod_two_pow (a b n : ℕ) : (a ||| b) % 2 ^ n = a % 2 ^ n ||| b % 2 ^ n := by
  apply Nat.eq_of_testBit_eq
  intro i
  simp only [Nat.testBit_mod_two_pow, Nat.testBit_or]
  by_cases h : i < n <;> simp [h]

/-- Taking the low `n` bits commutes with bitwise xor. -/
lemma xor_mod_two_pow (a b n : ℕ) : (a ^^^ b) % 2 ^ n = a % 2 ^ n ^^^ b % 2 ^ n := by
  apply Nat.eq_of_testBit_eq
  intro i
  simp only [Nat.testBit_mod_two_pow, Nat.testBit_xor]
  by_cases h : i < n <;> simp [h]

/-- A right shift of a 32-bit value stays below `2^32`. -/
lemma shiftRight_mod_two_pow (x k : ℕ) (h : x < 2 ^ 32) : x >>> k % 2 ^ 32 = x >>> k := by
  have hle : x >>> k ≤ x := by
    rw [Nat.shiftRight_eq_div_pow]
    exact Nat.div_le_self x (2 ^ k)
  exact Nat.mod_eq_of_lt (lt_of_le_of_lt hle h)

/-- The unmasked `rotr` of the source agrees with the 32-bit rotation once
reduced mod `2^32`. -/
lemma rotr_mod (x n : ℕ) : rotr x n % 2 ^ 32 = rotr32 x n := rfl

/-- The source's unmasked `summation1` agrees with the spec's `Σ1` mod `2^32`. -/
lemma summation1_mod (x : ℕ) : summation1 x % 2 ^ 32 = bigSigma1 x := by
  simp only [summation1, bigSigma1, xor_mod_two_pow, rotr_mod]

/-- The source's unmasked `summation0` agrees with the spec's `Σ0` mod `2^32`. -/
lemma summation0_mod (x : ℕ) : summation0 x % 2 ^ 32 = bigSigma0 x := by
  simp only [summation0, bigSigma0, xor_mod_two_pow, rotr_mod]

/-- The source's unmasked `sigma0` agrees with the spec's `σ0` mod `2^32` on
32-bit inputs. -/
lemma sigma0_mod (x : ℕ) (h : x < 2 ^ 32) : sigma0 x % 2 ^ 32 = smallSigma0 x := by
  simp only [sigma0, smallSigma0, shr, xor_mod_two_pow, rotr_mod,
    shiftRight_mod_two_pow x 3 h]

/-- The source's unmasked `sigma1` agrees with the spec's `σ1` mod `2^32` on
32-bit inputs. -/
lemma sigma1_mod (x : ℕ) (h : x < 2 ^ 32) : sigma1 x % 2 ^ 32 = smallSigma1 x := by
  simp only [sigma1, smallSigma1, shr, xor_mod_two_pow, rotr_mod,
    shiftRight_mod_two_pow x 10 h]

/-- On a 32-bit third argument, the source's `ch` (built on Python's
unbounded `~`) equals the spec's 32-bit `ch`. -/
lemma ch_eq_ch32 (x y z : ℕ) (hz : z < 2 ^ 32) : ch x y z = ch32 x y z := by
  unfold ch notAnd ch32
  congr 1
  apply Nat.eq_of_testBit_eq
  intro i
  by_cases h : i < 32
  · simp only [Nat.testBit_xor, Nat.testBit_and, Nat.testBit_two_pow_sub_one, h,
      decide_True]
    cases x.testBit i <;> cases z.testBit i <;> rfl
  · have hz' : z.testBit i = false :=
      Nat.testBit_lt_two_pow
        (lt_of_lt_of_le hz (Nat.pow_le_pow_right (by norm_num) (not_lt.mp h)))
    simp [Nat.testBit_xor, Nat.testBit_and, Nat.testBit_two_pow_sub_one, h, hz']

/-- The source's `maj` is literally the spec's `maj`. -/
lemma maj_eq_maj32 (x y z : ℕ) : maj x y z = maj32 x y z := rfl

/-- A 32-bit rotation is below `2^32`. -/
lemma rotr32_lt (x n : ℕ) : rotr32 x n < 2 ^ 32 := Nat.mod_lt _ (by norm_num)

/-- Spec `Σ1` produces a 32-bit value. -/
lemma bigSigma1_lt (x : ℕ) : bigSigma1 x < 2 ^ 32 :=
  Nat.xor_lt_two_pow (Nat.xor_lt_two_pow (rotr32_lt x 6) (rotr32_lt x 11)) (rotr32_lt x 25)

/-- Spec `Σ0` produces a 32-bit value. -/
lemma bigSigma0_lt (x : ℕ) : bigSigma0 x < 2 ^ 32 :=
  Nat.xor_lt_two_pow (Nat.xor_lt_two_pow (rotr32_lt x 2) (rotr32_lt x 13)) (rotr32_lt x 22)

/-- Spec `ch` produces a 32-bit value when `y` and `z` are 32-bit. -/
lemma ch32_lt (x y z : ℕ) (hy : y < 2 ^ 32) (hz : z < 2 ^ 32) : ch32 x y z < 2 ^ 32 :=
  Nat.xor_lt_two_pow (Nat.and_lt_two_pow x hy) (Nat.and_lt_two_pow _ hz)

/-- The source's `maj` produces a 32-bit value when `y` and `z` are 32-bit. -/
lemma maj_lt (x y z : ℕ) (hy : y < 2 ^ 32) (hz : z < 2 ^ 32) : maj x y z < 2 ^ 32 :=
  Nat.xor_lt_two_pow
    (Nat.xor_lt_two_pow (Nat.and_lt_two_pow x hy) (Nat.and_lt_two_pow x hz))
    (Nat.and_lt_two_pow y hz)

/-- Converting the 4-byte big-endian digits back yields the value. -/
lemma bytes_to_integer_bytes4 (x : ℕ) (h : x < 2 ^ 32) :
    bytes_to_integer (bytes4 x) = x := by
  simp only [bytes_to_integer, bytes4, List.foldl_cons, List.foldl_nil]
  omega

/-- Converting the 8-byte big-endian digits back yields the value. -/
lemma bytes_to_integer_bytes8 (x : ℕ) (h : x < 2 ^ 64) :
    bytes_to_integer (bytes8 x) = x := by
  simp only [bytes_to_integer, bytes8, List.foldl_cons, List.foldl_nil]
  omega

/-- Big-endian folding of byte digits is bounded by `256 ^ length`. -/
lemma foldl_base256_lt :
    ∀ (l : List ℕ) (acc : ℕ), (∀ b ∈ l, b < 256) →
      l.foldl (fun a b => a * 256 + b) acc < (acc + 1) * 256 ^ l.length := by
  intro l
  induction l with
  | nil => intro acc _; simp
  | cons b l ih =>
    intro acc hb
    have hb' : b < 256 := hb b (List.mem_cons_self b l)
    have h1 := ih (acc * 256 + b) (fun x hx => hb x (List.mem_cons_of_mem b hx))
    calc (b :: l).foldl (fun a b => a * 256 + b) acc
        = l.foldl (fun a b => a * 256 + b) (acc * 256 + b) := by
          simp [List.foldl_cons]
      _ < (acc * 256 + b + 1) * 256 ^ l.length := h1
      _ ≤ (acc + 1) * 256 ^ (b :: l).length := by
          simp only [List.length_cons, pow_succ]
          have : acc * 256 + b + 1 ≤ (acc + 1) * 256 := by omega
          calc (acc * 256 + b + 1) * 256 ^ l.length
              ≤ (acc + 1) * 256 * 256 ^ l.length :=
                Nat.mul_le_mul_right _ this
            _ = (acc + 1) * (256 ^ l.length * 256) := by ring

/-- A byte list of length at most 4 denotes a 32-bit value. -/
lemma bytes_to_integer_lt (l : List ℕ) (hb : ∀ b ∈ l, b < 256) (hl : l.length ≤ 4) :
    bytes_to_integer l < 2 ^ 32 := by
  have h := foldl_base256_lt l 0 hb
  have h2 : (256 : ℕ) ^ l.length ≤ 256 ^ 4 :=
    Nat.pow_le_pow_right (by norm_num) hl
  calc bytes_to_integer l < (0 + 1) * 256 ^ l.length := h
    _ = 256 ^ l.length := by ring
    _ ≤ 256 ^ 4 := h2
    _ = 2 ^ 32 := by norm_num

end Helpers

section StructureLemmas

open SHA256Impl SHA256Spec

/-- The schedule loop adds one entry per iteration. -/
lemma mkScheduleN_length (blk : List ℕ) : ∀ n, (mkScheduleN blk n).length = n := by
  intro n
  induction n with
  | zero => rfl
  | succ n ih => simp [mkScheduleN, ih]

/-- The entry at index `t` is the one appended at iteration `t`, computed
from the schedule built so far. -/
lemma mkScheduleN_getD (blk : List ℕ) :
    ∀ {n t : ℕ}, t < n →
      (mkScheduleN blk n).getD t [] = scheduleEntry blk (mkScheduleN blk t) t := by
  intro n
  induction n with
  | zero => intro t ht; omega
  | succ n ih =>
    intro t ht
    show ((mkScheduleN blk n) ++ [scheduleEntry blk (mkScheduleN blk n) n]).getD t []
        = scheduleEntry blk (mkScheduleN blk t) t
    rcases Nat.lt_or_ge t n with h | h
    · rw [List.getD_append _ _ _ _ (by rw [mkScheduleN_length]; exact h)]
      exact ih h
    · have ht' : t = n := by omega
      subst ht'
      rw [List.getD_append_right _ _ _ _ (by rw [mkScheduleN_length])]
      simp [mkScheduleN_length]

/-- Every schedule entry is at most 4 bytes long. -/
lemma scheduleEntry_length_le (blk : List ℕ) (ms : List (List ℕ)) (t : ℕ) :
    (scheduleEntry blk ms t).length ≤ 4 := by
  unfold scheduleEntry
  split
  · simp [List.length_take]
  · simp [bytes4]

/-- Every schedule entry holds bytes below 256 when the block does. -/
lemma scheduleEntry_bytes_lt (blk : List ℕ) (hb : ∀ b ∈ blk, b < 256)
    (ms : List (List ℕ)) (t : ℕ) : ∀ b ∈ scheduleEntry blk ms t, b < 256 := by
  unfold scheduleEntry
  split
  · intro b hbm
    exact hb b (List.mem_of_mem_drop (List.mem_of_mem_take hbm))
  · intro b hbm
    simp only [bytes4, List.mem_cons, List.not_mem_nil, or_false] at hbm
    rcases hbm with rfl | rfl | rfl | rfl <;> omega

/-- Every word of the schedule is a 32-bit value when the block's bytes are
genuine bytes. -/
lemma scheduleWord_lt (blk : List ℕ) (hb : ∀ b ∈ blk, b < 256) (t : ℕ) :
    scheduleWord blk t < 2 ^ 32 := by
  unfold scheduleWord mkSchedule
  by_cases h : t < 64
  · rw [mkScheduleN_getD blk h]
    exact bytes_to_integer_lt _ (scheduleEntry_bytes_lt blk hb _ t)
      (scheduleEntry_length_le blk _ t)
  · rw [List.getD_eq_default _ _ (by rw [mkScheduleN_length]; omega)]
    simp [bytes_to_integer]

/-- Exact description of the zero-padding loop: it appends
`(120 - len % 64) % 64` zero bytes (the count that brings the byte length to
56 mod 64), provided the fuel covers that count. -/
lemma padZerosAux_eq :
    ∀ (fuel : ℕ) (msg : List ℕ), (120 - msg.length % 64) % 64 ≤ fuel →
      padZerosAux fuel msg = msg ++ List.replicate ((120 - msg.length % 64) % 64) 0 := by
  intro fuel
  induction fuel with
  | zero =>
    intro msg h
    have h0 : (120 - msg.length % 64) % 64 = 0 := by omega
    simp [padZerosAux, h0]
  | succ fuel ih =>
    intro msg h
    show (if msg.length * 8 % 512 = 448 then msg
          else padZerosAux fuel (msg ++ [0x00]))
        = msg ++ List.replicate ((120 - msg.length % 64) % 64) 0
    by_cases hc : msg.length * 8 % 512 = 448
    · have h56 : msg.length % 64 = 56 := by omega
      simp [hc, h56]
    · have h56 : msg.length % 64 ≠ 56 := by omega
      have hpos : 1 ≤ (120 - msg.length % 64) % 64 := by omega
      have hlen : (msg ++ [0x00]).length = msg.length + 1 := by simp
      have hstep : (120 - (msg.length + 1) % 64) % 64
          = (120 - msg.length % 64) % 64 - 1 := by omega
      rw [if_neg hc, ih (msg ++ [0x00]) (by rw [hlen, hstep]; omega), hlen, hstep]
      obtain ⟨k, hk⟩ : ∃ k, (120 - msg.length % 64) % 64 = k + 1 :=
        ⟨(120 - msg.length % 64) % 64 - 1, by omega⟩
      rw [hk]
      simp [List.replicate_succ]

/-- The zero-padding loop, with its fuel discharged. -/
lemma padZeros_eq (msg : List ℕ) :
    padZeros msg = msg ++ List.replicate ((120 - msg.length % 64) % 64) 0 :=
  padZerosAux_eq 64 msg (by omega)

/-- For messages whose bit length fits the 64-bit length field, the source's
`padding` succeeds and produces exactly the padded message described by the
design document. -/
lemma padding_eq_padSpec (m : List ℕ) (h : 8 * m.length < 2 ^ 64) :
    padding m = some (padSpec m) := by
  have h' : m.length * 8 < 2 ^ 64 := by omega
  simp only [padding, length_to_bytes, h', if_true, padSpec, Option.map_some']
  rw [padZeros_eq]
  have hlen : (m ++ [0b10000000]).length = m.length + 1 := by simp
  rw [hlen, Nat.mul_comm m.length 8]
  simp [List.append_assoc]

end StructureLemmas


section PipelineLemmas

open SHA256Impl SHA256Spec

set_option maxRecDepth 10000 in
/-- The constant generator reproduces the published FIPS 180-4 round-constant
table exactly (floating point idealized as exact real roots, see
`convert_prime_fraction_to_hex`). -/
lemma gen_keys_eq : gen_keys = Ktable := by decide

set_option maxRecDepth 10000 in
/-- The constant generator reproduces the published FIPS 180-4 initial-hash
table exactly. -/
lemma gen_initial_hash_eq : gen_initial_hash = H0table := by decide

/-- The generated initial hash value has exactly 8 words. -/
lemma gen_initial_hash_length : gen_initial_hash.length = 8 := by
  rw [gen_initial_hash_eq]; rfl

/-- The block loop of `sha256` only keeps the schedule of the last block:
folding `fun _ blk => some (mkSchedule blk)` returns the schedule of the
final block (or the start value if there is no block). -/
lemma foldl_schedule_last :
    ∀ (bs : List (List ℕ)) (init : Option (List (List ℕ))),
      bs.foldl (fun _ blk => some (mkSchedule blk)) init =
        (bs.getLast?).elim init (fun b => some (mkSchedule b)) := by
  intro bs
  induction bs with
  | nil => intro init; simp
  | cons x bs ih =>
    intro init
    cases bs with
    | nil => simp [List.foldl_cons, List.foldl_nil]
    | cons y ys =>
      rw [List.foldl_cons, ih (some (mkSchedule x)), List.getLast?_cons_cons]
      cases h : (y :: ys).getLast? with
      | none => simp at h
      | some b => simp

/-- Specialization of `foldl_schedule_last` to the start value `None` the
source loop effectively begins with. -/
lemma foldl_schedule_none (bs : List (List ℕ)) :
    bs.foldl (fun _ blk => some (mkSchedule blk)) none =
      (bs.getLast?).map mkSchedule := by
  rw [foldl_schedule_last]
  cases bs.getLast? with
  | none => rfl
  | some b => rfl

/-- Once padding succeeded, `sha256` is entirely determined by the final
block of the padded message. -/
lemma sha256_eq_digestOfSchedule (m p : List ℕ) (h : padding m = some p) :
    sha256 m =
      ((parsing p).getLast?).bind (fun blk => digestOfSchedule (mkSchedule blk)) := by
  simp only [sha256, h, Option.some_bind]
  rw [foldl_schedule_none]
  cases hl : (parsing p).getLast? with
  | none => rw [Option.map_none', Option.none_bind, Option.none_bind]
  | some blk => rw [Option.map_some', Option.some_bind, Option.some_bind]

/-- Serializing a list of 32-bit values never fails and yields the 4-byte
digit groups. -/
lemma mapM_integer_to_bytes :
    ∀ (l : List ℕ), (∀ x ∈ l, x < 2 ^ 32) →
      l.mapM integer_to_bytes = some (l.map bytes4)
  | [], _ => rfl
  | x :: l, hl => by
    have hx : integer_to_bytes x = some (bytes4 x) := by
      unfold integer_to_bytes
      rw [if_pos (hl x (List.mem_cons_self x l))]
    rw [List.mapM_cons, hx,
      mapM_integer_to_bytes l (fun y hy => hl y (List.mem_cons_of_mem x hy))]
    rfl

/-- Every entry of the accumulation `H[i] := (H[i] + output[i]) mod 2^32` is
a 32-bit value. -/
lemma zipWith_mod_lt :
    ∀ (as bs : List ℕ) (x : ℕ),
      x ∈ List.zipWith (fun i j => (i + j) % 2 ^ 32) as bs → x < 2 ^ 32 := by
  intro as
  induction as with
  | nil => intro bs x hx; simp at hx
  | cons a as ih =>
    intro bs x hx
    cases bs with
    | nil => simp at hx
    | cons b bs =>
      simp only [List.zipWith_cons_cons, List.mem_cons] at hx
      rcases hx with rfl | hx
      · exact Nat.mod_lt _ (by norm_num)
      · exact ih bs x hx

/-- Serializing `n` words yields `4n` bytes. -/
lemma flatten_map_bytes4_length (l : List ℕ) :
    ((l.map bytes4).flatten).length = 4 * l.length := by
  induction l with
  | nil => rfl
  | cons x l ih =>
    simp only [List.map_cons, List.flatten_cons, List.length_append, ih, bytes4]
    simp only [List.length_cons, List.length_nil]
    ring

/-- The tail end of `sha256` always produces a 32-byte digest. -/
lemma digestOfSchedule_some (ms : List (List ℕ)) :
    ∃ d, digestOfSchedule ms = some d ∧ d.length = 32 := by
  simp only [digestOfSchedule]
  generalize compress gen_keys ms (initDigest gen_initial_hash) = s
  rw [mapM_integer_to_bytes _
    (fun x hx => zipWith_mod_lt gen_initial_hash [s.a, s.b, s.c, s.d, s.e, s.f, s.g, s.h] x hx)]
  rw [Option.map_some']
  refine ⟨_, rfl, ?_⟩
  rw [flatten_map_bytes4_length, List.length_zipWith, gen_initial_hash_length]
  rfl

/-- A nonempty byte list parses into at least one block. -/
lemma parsing_ne_nil (p : List ℕ) (h : p ≠ []) : parsing p ≠ [] := by
  unfold parsing
  cases p with
  | nil => exact absurd rfl h
  | cons x xs =>
    show parsingAux (xs.length + 1) (x :: xs) ≠ []
    unfold parsingAux
    simp

end PipelineLemmas

section RoundAndScheduleLemmas

open SHA256Impl SHA256Spec

/-- The word stored at index `t ≤ 15` of the schedule: the `t`-th 4-byte
big-endian slice of the block. -/
lemma scheduleWord_init (blk : List ℕ) (t : ℕ) (h15 : t ≤ 15) :
    scheduleWord blk t = bytes_to_integer ((blk.drop (4 * t)).take 4) := by
  unfold scheduleWord mkSchedule
  rw [mkScheduleN_getD blk (by omega : t < 64)]
  simp only [scheduleEntry, if_pos h15]
  rw [Nat.mul_comm t 4]

/-- The schedule word at `t < 64` is the entry appended at iteration `t`. -/
lemma scheduleWord_eq_entry (blk : List ℕ) (t : ℕ) (ht : t < 64) :
    scheduleWord blk t = bytes_to_integer (scheduleEntry blk (mkScheduleN blk t) t) := by
  unfold scheduleWord mkSchedule
  rw [mkScheduleN_getD blk ht]

/-- Entries already placed do not change as the schedule grows. -/
lemma scheduleWord_stable (blk : List ℕ) (t u : ℕ) (hu : u < t) (ht : t ≤ 64) :
    bytes_to_integer ((mkScheduleN blk t).getD u []) = scheduleWord blk u := by
  rw [mkScheduleN_getD blk hu]
  unfold scheduleWord mkSchedule
  rw [mkScheduleN_getD blk (by omega : u < 64)]

/-- The recurrence satisfied by the schedule words at indices 16 to 63, with
the sigma functions of the specification. -/
lemma scheduleWord_rec (blk : List ℕ) (hb : ∀ b ∈ blk, b < 256) (t : ℕ)
    (h16 : 16 ≤ t) (h63 : t ≤ 63) :
    scheduleWord blk t =
      (smallSigma1 (scheduleWord blk (t - 2)) + scheduleWord blk (t - 7) +
        smallSigma0 (scheduleWord blk (t - 15)) + scheduleWord blk (t - 16)) % 2 ^ 32 := by
  rw [scheduleWord_eq_entry blk t (by omega)]
  have hnot : ¬ t ≤ 15 := by omega
  simp only [scheduleEntry, hnot, if_false]
  rw [bytes_to_integer_bytes4 _ (Nat.mod_lt _ (by norm_num))]
  rw [scheduleWord_stable blk t (t - 2) (by omega) (by omega),
    scheduleWord_stable blk t (t - 7) (by omega) (by omega),
    scheduleWord_stable blk t (t - 15) (by omega) (by omega),
    scheduleWord_stable blk t (t - 16) (by omega) (by omega)]
  have h1 : sigma1 (scheduleWord blk (t - 2)) % 2 ^ 32
      = smallSigma1 (scheduleWord blk (t - 2)) :=
    sigma1_mod _ (scheduleWord_lt blk hb (t - 2))
  have h0 : sigma0 (scheduleWord blk (t - 15)) % 2 ^ 32
      = smallSigma0 (scheduleWord blk (t - 15)) :=
    sigma0_mod _ (scheduleWord_lt blk hb (t - 15))
  omega

end RoundAndScheduleLemmas

section ClaimC6C7

open SHA256Impl SHA256Spec

/-- Claim C7 (amended): the source's unmasked `rotr` is only congruent
mod `2^32` to the 32-bit right rotation; reduced mod `2^32` it is exactly
that rotation (bit `i` of the result is bit `(i+n) mod 32` of `x`). -/
theorem claim_C7_amended (x n : ℕ) (hx : x < 2 ^ 32) (h1 : 1 ≤ n) (h2 : n ≤ 31) :
    rotr x n % 2 ^ 32 = rotr32 x n ∧ rotr32 x n < 2 ^ 32 ∧
    ∀ i, i < 32 → (rotr32 x n).testBit i = x.testBit ((i + n) % 32) := by
  refine ⟨rotr_mod x n, rotr32_lt x n, ?_⟩
  intro i hi
  unfold rotr32
  rw [Nat.testBit_mod_two_pow]
  simp only [Nat.testBit_or, Nat.testBit_shiftRight, Nat.testBit_shiftLeft, hi,
    decide_True, Bool.true_and]
  by_cases hcase : i < 32 - n
  · have hmod : (i + n) % 32 = i + n := Nat.mod_eq_of_lt (by omega)
    have hlow : decide (32 - n ≤ i) = false := by
      simp only [decide_eq_false_iff_not]; omega
    rw [hmod, hlow, Bool.false_and, Bool.or_false, Nat.add_comm n i]
  · have h32 : x.testBit (n + i) = false :=
      Nat.testBit_lt_two_pow
        (lt_of_lt_of_le hx (Nat.pow_le_pow_right (by norm_num) (by omega)))
    have hmod : (i + n) % 32 = i - (32 - n) := by omega
    have hhigh : decide (32 - n ≤ i) = true := by
      simp only [decide_eq_true_eq]; omega
    rw [h32, hmod, hhigh, Bool.true_and, Bool.false_or]

/-- Claim C6: on 32-bit working variables and 32-bit `K[t]`, `W[t]`, the
code's round update (with its unmasked primitives and misplaced `% 2**32`)
computes exactly the specification's round `T1`/`T2` state transition. -/
theorem claim_C6_round_equiv (k w : ℕ) (s : Digest)
    (ha : s.a < 2 ^ 32) (hb : s.b < 2 ^ 32) (hc : s.c < 2 ^ 32) (hd : s.d < 2 ^ 32)
    (he : s.e < 2 ^ 32) (hf : s.f < 2 ^ 32) (hg : s.g < 2 ^ 32) (hh : s.h < 2 ^ 32)
    (hk : k < 2 ^ 32) (hw : w < 2 ^ 32) :
    roundCode k w s = roundSpec k w s := by
  have hch : ch s.e s.f s.g = ch32 s.e s.f s.g := ch_eq_ch32 _ _ _ hg
  have hmajlt : maj s.a s.b s.c < 2 ^ 32 := maj_lt _ _ _ hb hc
  have hmaje : maj s.a s.b s.c = maj32 s.a s.b s.c := maj_eq_maj32 _ _ _
  have hs1 : summation1 s.e % 2 ^ 32 = bigSigma1 s.e := summation1_mod s.e
  have hs0 : summation0 s.a % 2 ^ 32 = bigSigma0 s.a := summation0_mod s.a
  unfold roundCode roundSpec
  simp only [Digest.mk.injEq]
  rw [← hch, ← hmaje, ← hs1, ← hs0]
  refine ⟨?_, trivial, trivial, trivial, ?_, trivial, trivial, trivial⟩
  · omega
  · omega

end ClaimC6C7

section ClaimsEval

open SHA256Impl SHA256Spec

set_option maxRecDepth 20000 in
/-- Validation of the reference model: `sha256Spec` reproduces the published
SHA-256 test vector for the three-byte message `"abc"`. -/
lemma sha256Spec_abc :
    sha256Spec [0x61, 0x62, 0x63] =
      [0xba, 0x78, 0x16, 0xbf, 0x8f, 0x01, 0xcf, 0xea, 0x41, 0x41, 0x40, 0xde,
       0x5d, 0xae, 0x22, 0x23, 0xb0, 0x03, 0x61, 0xa3, 0x96, 0x17, 0x7a, 0x9c,
       0xb4, 0x10, 0xff, 0x61, 0xf2, 0x00, 0x15, 0xad] := by decide

set_option maxRecDepth 20000 in
/-- Claim C2: `sha256` applied to the empty byte sequence returns the 32-byte
digest `e3b0c442…b855`, and applied to `b"abc"` returns `ba7816bf…15ad`. -/
theorem claim_C2_known_vectors :
    sha256 [] =
      some [0xe3, 0xb0, 0xc4, 0x42, 0x98, 0xfc, 0x1c, 0x14, 0x9a, 0xfb, 0xf4, 0xc8,
            0x99, 0x6f, 0xb9, 0x24, 0x27, 0xae, 0x41, 0xe4, 0x64, 0x9b, 0x93, 0x4c,
            0xa4, 0x95, 0x99, 0x1b, 0x78, 0x52, 0xb8, 0x55] ∧
    sha256 [0x61, 0x62, 0x63] =
      some [0xba, 0x78, 0x16, 0xbf, 0x8f, 0x01, 0xcf, 0xea, 0x41, 0x41, 0x40, 0xde,
            0x5d, 0xae, 0x22, 0x23, 0xb0, 0x03, 0x61, 0xa3, 0x96, 0x17, 0x7a, 0x9c,
            0xb4, 0x10, 0xff, 0x61, 0xf2, 0x00, 0x15, 0xad] := by
  constructor <;> decide

set_option maxRecDepth 20000 in
/-- Claim C1 (code bug): `sha256` does **not** equal the FIPS 180-4 reference
on all inputs — on the 64-byte message of zero bytes (two padded blocks) the
code's digest differs from the reference digest. -/
theorem claim_C1_code_bug :
    sha256 (List.replicate 64 0) ≠ some (sha256Spec (List.replicate 64 0)) := by decide

set_option maxRecDepth 20000 in
/-- Claim C3 (code bug): the code does **not** chain state across blocks —
two 64-byte messages differing in their entire first block get identical
digests from `sha256` (only the final, pure-padding block is compressed),
while the FIPS reference distinguishes them. -/
theorem claim_C3_code_bug :
    sha256 (List.replicate 64 0) = sha256 (List.replicate 64 1) ∧
    sha256Spec (List.replicate 64 0) ≠ sha256Spec (List.replicate 64 1) := by
  constructor <;> decide

end ClaimsEval

section RemainingClaims

open SHA256Impl SHA256Spec

/-- Shared: a message of `2^61` bytes has bit length `2^64`, which overflows
the 8-byte length field, so `padding` raises (returns `none`). -/
lemma padding_big_none : padding (List.replicate (2 ^ 61) 0) = none := by
  have h : ¬ ((List.replicate (2 ^ 61) (0 : ℕ)).length * 8 < 2 ^ 64) := by
    rw [List.length_replicate]; norm_num
  simp only [padding, length_to_bytes, h, if_false, Option.map_none']

/-- Claim C4, counterexample to universality: at a `2^61`-byte input the
bit length equals `2^64`, `l.to_bytes(8, 'big')` overflows, and `padding`
raises instead of returning the padded message. -/
theorem claim_C4_counterexample : padding (List.replicate (2 ^ 61) 0) = none :=
  padding_big_none

/-- Claim C4 (amended with the bit-length bound the 64-bit length field
imposes): for every `m` with `8·len(m) < 2^64`, `padding m` is `m`, one
`0x80` byte, `z` zero bytes with `z` the minimal count making the bit length
≡ 448 mod 512, then the original bit length as 8 big-endian bytes; the
result's length is a multiple of 64, and a 55-byte input gets `z = 0`. -/
theorem claim_C4_padding (m : List ℕ) (h : 8 * m.length < 2 ^ 64) :
    ∃ z lb,
      padding m = some (m ++ [0x80] ++ (List.replicate z 0 ++ lb)) ∧
      (8 * (m.length + 1 + z)) % 512 = 448 ∧
      (∀ z', (8 * (m.length + 1 + z')) % 512 = 448 → z ≤ z') ∧
      lb.length = 8 ∧ bytes_to_integer lb = 8 * m.length ∧
      (∀ p, padding m = some p → p.length % 64 = 0) ∧
      (m.length = 55 → z = 0) := by
  refine ⟨(120 - (m.length + 1) % 64) % 64, bytes8 (8 * m.length),
    ?_, by omega, fun z' hz' => by omega, by simp [bytes8],
    bytes_to_integer_bytes8 _ h, ?_, fun h55 => by omega⟩
  · rw [padding_eq_padSpec m h]
    unfold padSpec
    simp [List.append_assoc]
  · intro p hp
    rw [padding_eq_padSpec m h] at hp
    have hp' : p = padSpec m := by injection hp with hp'; exact hp'.symm
    subst hp'
    simp only [padSpec, List.length_append, List.length_cons, List.length_replicate,
      bytes8, List.length_nil]
    omega

/-- Claim C4 witness: the amended padding description instantiated at the
55-byte message of `0x01` bytes. -/
theorem claim_C4_witness :
    8 * (List.replicate 55 (1 : ℕ)).length < 2 ^ 64 ∧
    ∃ z lb,
      padding (List.replicate 55 1) =
        some (List.replicate 55 1 ++ [0x80] ++ (List.replicate z 0 ++ lb)) ∧
      (8 * ((List.replicate 55 (1 : ℕ)).length + 1 + z)) % 512 = 448 ∧
      (∀ z', (8 * ((List.replicate 55 (1 : ℕ)).length + 1 + z')) % 512 = 448 → z ≤ z') ∧
      lb.length = 8 ∧ bytes_to_integer lb = 8 * (List.replicate 55 (1 : ℕ)).length ∧
      (∀ p, padding (List.replicate 55 1) = some p → p.length % 64 = 0) ∧
      ((List.replicate 55 (1 : ℕ)).length = 55 → z = 0) :=
  ⟨by decide, claim_C4_padding _ (by decide)⟩

/-- Claim C5: for every 64-byte block the schedule has exactly 64 entries,
words 0..15 are the block's 4-byte big-endian slices in order, and words
16..63 satisfy `W[t] = (σ1(W[t-2]) + W[t-7] + σ0(W[t-15]) + W[t-16]) mod 2^32`
with the specification's sigma functions. -/
theorem claim_C5_schedule (blk : List ℕ) (h64 : blk.length = 64)
    (hb : ∀ b ∈ blk, b < 256) :
    (mkSchedule blk).length = 64 ∧
    (∀ t, t ≤ 15 → scheduleWord blk t = bytes_to_integer ((blk.drop (4 * t)).take 4)) ∧
    (∀ t, 16 ≤ t → t ≤ 63 → scheduleWord blk t =
      (smallSigma1 (scheduleWord blk (t - 2)) + scheduleWord blk (t - 7) +
        smallSigma0 (scheduleWord blk (t - 15)) + scheduleWord blk (t - 16)) % 2 ^ 32) :=
  ⟨mkScheduleN_length blk 64, fun t ht => scheduleWord_init blk t ht,
   fun t h1 h2 => scheduleWord_rec blk hb t h1 h2⟩

/-- Claim C5 witness: the schedule properties instantiated at the padding
block of the empty message. -/
theorem claim_C5_witness :
    (0x80 :: List.replicate 63 (0 : ℕ)).length = 64 ∧
    (∀ b ∈ (0x80 :: List.replicate 63 (0 : ℕ)), b < 256) ∧
    ((mkSchedule (0x80 :: List.replicate 63 0)).length = 64 ∧
     (∀ t, t ≤ 15 → scheduleWord (0x80 :: List.replicate 63 0) t =
        bytes_to_integer (((0x80 :: List.replicate 63 (0 : ℕ)).drop (4 * t)).take 4)) ∧
     (∀ t, 16 ≤ t → t ≤ 63 → scheduleWord (0x80 :: List.replicate 63 0) t =
        (smallSigma1 (scheduleWord (0x80 :: List.replicate 63 0) (t - 2)) +
          scheduleWord (0x80 :: List.replicate 63 0) (t - 7) +
          smallSigma0 (scheduleWord (0x80 :: List.replicate 63 0) (t - 15)) +
          scheduleWord (0x80 :: List.replicate 63 0) (t - 16)) % 2 ^ 32)) :=
  ⟨by decide, by decide, claim_C5_schedule _ (by decide) (by decide)⟩

/-- Claim C8: the generated tables equal the fixed FIPS 180-4 tables —
all 64 round constants and all 8 initial-hash words — in particular
`K[0] = 0x428a2f98` and `H0[0] = 0x6a09e667`, with 64 resp. 8 entries. -/
theorem claim_C8_constant_tables :
    gen_keys = Ktable ∧ gen_initial_hash = H0table ∧
    gen_keys.getD 0 0 = 0x428a2f98 ∧ gen_initial_hash.getD 0 0 = 0x6a09e667 ∧
    gen_keys.length = 64 ∧ gen_initial_hash.length = 8 :=
  ⟨gen_keys_eq, gen_initial_hash_eq,
   by rw [gen_keys_eq]; decide, by rw [gen_initial_hash_eq]; decide,
   by rw [gen_keys_eq]; rfl, by rw [gen_initial_hash_eq]; rfl⟩

/-- Claim C9, counterexample to universality: at a `2^61`-byte input
`sha256` raises (padding overflows the 64-bit length field) instead of
returning 32 bytes. -/
theorem claim_C9_counterexample : sha256 (List.replicate (2 ^ 61) 0) = none := by
  simp only [sha256, padding_big_none, Option.none_bind]

/-- Claim C9 (amended with the bit-length bound): for every input below the
2^64-bit ceiling, `sha256` returns without raising and its output is exactly
32 bytes (every accumulated `H[i]` is reduced mod `2^32`, so serialization
never fails). -/
theorem claim_C9_output_shape (m : List ℕ) (h : 8 * m.length < 2 ^ 64) :
    ∃ d, sha256 m = some d ∧ d.length = 32 := by
  have hp := padding_eq_padSpec m h
  have hne : padSpec m ≠ [] := by simp [padSpec]
  have hpar := parsing_ne_nil _ hne
  obtain ⟨blk, hblk⟩ : ∃ blk, (parsing (padSpec m)).getLast? = some blk := by
    cases hgl : (parsing (padSpec m)).getLast? with
    | none => exact absurd (List.getLast?_eq_none_iff.mp hgl) hpar
    | some b => exact ⟨b, rfl⟩
  rw [sha256_eq_digestOfSchedule m _ hp, hblk, Option.some_bind]
  exact digestOfSchedule_some _

/-- Claim C9 witness: the output-shape statement instantiated at the
three-byte message `"abc"`. -/
theorem claim_C9_witness :
    8 * ([0x61, 0x62, 0x63] : List ℕ).length < 2 ^ 64 ∧
    ∃ d, sha256 [0x61, 0x62, 0x63] = some d ∧ d.length = 32 :=
  ⟨by decide, claim_C9_output_shape _ (by decide)⟩

/-- Claim C10: the digest depends only on the final 64-byte block of the
padded message — any two messages whose padded forms share that final block
hash identically under `sha256`. -/
theorem claim_C10_last_block_only (m1 m2 p1 p2 : List ℕ)
    (h1 : padding m1 = some p1) (h2 : padding m2 = some p2)
    (hlast : (parsing p1).getLast? = (parsing p2).getLast?) :
    sha256 m1 = sha256 m2 := by
  rw [sha256_eq_digestOfSchedule m1 p1 h1, sha256_eq_digestOfSchedule m2 p2 h2, hlast]

set_option maxRecDepth 20000 in
/-- Claim C10 witness: the all-zero and all-one 64-byte messages pad to
different first blocks but the same final block, and `sha256` maps them to
the same digest. -/
theorem claim_C10_witness :
    padding (List.replicate 64 0) =
      some (List.replicate 64 0 ++ [0x80] ++ List.replicate 55 0 ++ [0, 0, 0, 0, 0, 0, 2, 0]) ∧
    padding (List.replicate 64 1) =
      some (List.replicate 64 1 ++ [0x80] ++ List.replicate 55 0 ++ [0, 0, 0, 0, 0, 0, 2, 0]) ∧
    (parsing (List.replicate 64 0 ++ [0x80] ++ List.replicate 55 0 ++ [0, 0, 0, 0, 0, 0, 2, 0])).getLast?
      = (parsing (List.replicate 64 1 ++ [0x80] ++ List.replicate 55 0 ++ [0, 0, 0, 0, 0, 0, 2, 0])).getLast? ∧
    sha256 (List.replicate 64 0) = sha256 (List.replicate 64 1) :=
  ⟨by decide, by decide, by decide,
   claim_C10_last_block_only (List.replicate 64 0) (List.replicate 64 1)
     (List.replicate 64 0 ++ [0x80] ++ List.replicate 55 0 ++ [0, 0, 0, 0, 0, 0, 2, 0])
     (List.replicate 64 1 ++ [0x80] ++ List.replicate 55 0 ++ [0, 0, 0, 0, 0, 0, 2, 0])
     (by decide) (by decide) (by decide)⟩

end RemainingClaims

section WitnessesAndCounterexamples

open SHA256Impl SHA256Spec

/-- Claim C7, counterexample as stated: `rotr 2 1 = 2^32 + 1`, which is not
below `2^32` and differs from the true 32-bit rotation of 2 by 1. -/
theorem claim_C7_counterexample :
    2 ^ 32 ≤ SHA256Impl.rotr 2 1 ∧ SHA256Impl.rotr 2 1 ≠ SHA256Spec.rotr32 2 1 := by
  decide

/-- Claim C7 witness: the amended rotation statement instantiated at
`x = 2`, `n = 1`. -/
theorem claim_C7_witness :
    (2 : ℕ) < 2 ^ 32 ∧ (1 : ℕ) ≤ 1 ∧ (1 : ℕ) ≤ 31 ∧
    (rotr 2 1 % 2 ^ 32 = rotr32 2 1 ∧ rotr32 2 1 < 2 ^ 32 ∧
      ∀ i, i < 32 → (rotr32 2 1).testBit i = (2 : ℕ).testBit ((i + 1) % 32)) :=
  ⟨by decide, by decide, by decide, claim_C7_amended 2 1 (by decide) (by decide) (by decide)⟩

/-- Claim C6 witness: the round equivalence instantiated at a concrete
8-tuple, round constant and schedule word. -/
theorem claim_C6_witness :
    ((⟨1, 2, 3, 4, 5, 6, 7, 8⟩ : Digest).a < 2 ^ 32 ∧
     (⟨1, 2, 3, 4, 5, 6, 7, 8⟩ : Digest).h < 2 ^ 32 ∧
     (0x428a2f98 : ℕ) < 2 ^ 32 ∧ (5 : ℕ) < 2 ^ 32) ∧
    roundCode 0x428a2f98 5 ⟨1, 2, 3, 4, 5, 6, 7, 8⟩ =
      roundSpec 0x428a2f98 5 ⟨1, 2, 3, 4, 5, 6, 7, 8⟩ :=
  ⟨⟨by decide, by decide, by decide, by decide⟩,
   claim_C6_round_equiv 0x428a2f98 5 ⟨1, 2, 3, 4, 5, 6, 7, 8⟩
     (by decide) (by decide) (by decide) (by decide)
     (by decide) (by decide) (by decide) (by decide) (by decide) (by decide)⟩

end WitnessesAndCounterexamples
